import Mathlib

/-!
Verification of the memory retrieval and tool-call orchestration core of the
jarvis personal-assistant application.

The development shallowly embeds, in Lean:
  * the cosine-similarity vector search of the local memory store
    (`cosineSimilarity`, `vectorSearchMemories` in `src/unnamed/part_003`,
    the IndexedDB-backed `services/db.ts` module);
  * the tokenized keyword search (`searchMemories` in the same module);
  * the result merger, sanitizer and tool-execution logic of
    `JarvisService.sendMessage` / `sendMessageStream`
    (`src/services/gemini.ts`), with the network collaborators
    (embedding endpoint, memory store) modelled as `Except`-valued fields
    of a `ToolEnv` record;
  * the server chat-session cache and its reset route
    (`src/server/routes/chat.ts`);
  * the streaming route's event emission (`src/server/routes/chat.ts`,
    `POST /message-stream`).

JavaScript strings are modelled as Lean `String`s; the search code works on
their character lists so that all matching is executable and kernel-reducible.
JavaScript numbers used as ids, timestamps and scores are `Nat`; embedding
vectors are `List ℝ`.
-/

/-! ### Character-level string helpers

`hasSub needle hay` models JavaScript `hay.includes(needle)`;
`startsWithChars needle hay` models `hay.startsWith(needle)`;
`splitWs` models `str.split(/\s+/)` (maximal whitespace runs; the JS form can
additionally produce empty tokens, which every caller below filters away by a
length bound); `lowerChars` models `str.toLowerCase()`.
-/

def lowerChars (l : List Char) : List Char := l.map Char.toLower

def startsWithChars : List Char → List Char → Bool
  | [], _ => true
  | _ :: _, [] => false
  | a :: as, b :: bs => a == b && startsWithChars as bs

def hasSub (needle : List Char) : List Char → Bool
  | [] => needle.isEmpty
  | c :: rest => startsWithChars needle (c :: rest) || hasSub needle rest

def splitWsAux : List Char → List Char → List (List Char)
  | cur, [] => if cur.isEmpty then [] else [cur.reverse]
  | cur, c :: rest =>
    if c.isWhitespace then
      if cur.isEmpty then splitWsAux [] rest
      else cur.reverse :: splitWsAux [] rest
    else splitWsAux (c :: cur) rest

def splitWs (l : List Char) : List (List Char) := splitWsAux [] l

/-! ### Data model -/

/-- The `MemoryType` union `'text' | 'image' | 'audio' | 'file'` of `types.ts`. -/
inductive MemoryType where
  | text
  | image
  | audio
  | file
deriving DecidableEq

/-- The `Memory` record of `types.ts`: a persisted memory row.  Optional JS
fields are `Option`s; `timestamp` is the epoch-milliseconds number. -/
structure Memory where
  id : Nat
  content : String
  category : String
  tags : List String
  timestamp : Nat
  type : MemoryType
  mediaData : Option String
  mediaMimeType : Option String
  mediaName : Option String
  embedding : Option (List ℝ)

/-! ### Cosine similarity (`cosineSimilarity` in `services/db.ts`)

`dotProd` models `vecA.reduce((sum, a, i) => sum + a * vecB[i], 0)` together
with its error path: the reduce visits every index of `vecA`, and when
`vecA` is longer than `vecB` the access `vecB[i]` is `undefined`,
`a * undefined` is NaN, and the whole sum is NaN.  The result is therefore
an `Option ℝ`: `some` of the pairwise-product sum when `vecA` is no longer
than `vecB`, `none` (NaN) otherwise.  `sumSq` models the separate own-list
reduce `vec.reduce((sum, a) => sum + a * a, 0)` used for the magnitudes,
which is always a real number.
-/

def dotProd : List ℝ → List ℝ → Option ℝ
  | [], _ => some 0
  | a :: as, b :: bs => (dotProd as bs).map (fun s => a * b + s)
  | _ :: _, [] => none

def sumSq : List ℝ → ℝ
  | [] => 0
  | a :: as => a * a + sumSq as

noncomputable def magnitude (v : List ℝ) : ℝ := Real.sqrt (sumSq v)

/-- Models `cosineSimilarity(vecA, vecB)`: the guard returns the real `0`
when either magnitude is zero (the divide-by-zero guard fires before the
dot product's value matters), else `dot / (|a| * |b|)`, which is NaN
(`none`) exactly when the dot product is. -/
noncomputable def cosineSimilarity (vecA vecB : List ℝ) : Option ℝ :=
  if magnitude vecA = 0 ∨ magnitude vecB = 0 then some 0
  else (dotProd vecA vecB).map (fun d => d / (magnitude vecA * magnitude vecB))

/-! ### Vector search (`vectorSearchMemories` in `services/db.ts`) -/

/-- The similarity score a memory receives against a query vector (`some`
a real score, `none` for NaN).  The source reads `m.embedding!` under the
`filter(m => m.embedding)` guard; records without an embedding never reach
the scoring, so `getD []` is only a totalizer. -/
noncomputable def simScore (queryEmbedding : List ℝ) (m : Memory) : Option ℝ :=
  cosineSimilarity queryEmbedding (m.embedding.getD [])

/-- The sort comparator `(a, b) => b.score - a.score` as the "sorts before
or equal" Boolean relation on scored entries.  When either score is NaN the
subtraction is NaN, and the ECMAScript `SortCompare` rule coerces a NaN
comparator result to `+0`: the pair counts as equal for the stable sort. -/
noncomputable def simSortLe (x y : Memory × Option ℝ) : Bool :=
  match x.2, y.2 with
  | some sx, some sy => decide (sy ≤ sx)
  | _, _ => true

/-- Models `vectorSearchMemories(queryEmbedding, limit)` over an explicit
corpus: keep records with a present embedding, score each by cosine
similarity, sort by the descending-score comparator with a stable sort,
take `limit`, return the records. -/
noncomputable def vectorSearchMemories (queryEmbedding : List ℝ)
    (memories : List Memory) (limit : Nat) : List Memory :=
  let scored := (memories.filter (fun m => m.embedding.isSome)).map
    (fun m => (m, simScore queryEmbedding m))
  ((scored.mergeSort simSortLe).take limit).map Prod.fst

/-- The source declares `limit: number = 5`; all call sites in
`JarvisService` use this default. -/
noncomputable def vectorSearchMemoriesDefault (queryEmbedding : List ℝ)
    (memories : List Memory) : List Memory :=
  vectorSearchMemories queryEmbedding memories 5

/-! ### Keyword search (`searchMemories` in `services/db.ts`) -/

/-- Models `lowerQuery.split(/\s+/).filter(k => k.length > 2)`. -/
def keywordsOf (query : String) : List (List Char) :=
  (splitWs (lowerChars query.data)).filter (fun k => 2 < k.length)

/-- The lowercased media file name of a record, `''` when absent
(`mem.mediaName ? mem.mediaName.toLowerCase() : ''`). -/
def mediaNameChars (m : Memory) : List Char :=
  match m.mediaName with
  | some n => lowerChars n.data
  | none => []

/-- One keyword hitting one record: the keyword is a substring of the
lowercased content, category, any tag, or media filename. -/
def keywordHits (k : List Char) (m : Memory) : Bool :=
  hasSub k (lowerChars m.content.data) || hasSub k (lowerChars m.category.data) ||
    m.tags.any (fun t => hasSub k (lowerChars t.data)) || hasSub k (mediaNameChars m)

/-- The record-matching predicate of `searchMemories`: ANY surviving keyword
hits the record; when no keyword survives the length filter, fall back to a
substring match of the whole query against content, category and tags. -/
def memoryMatches (query : String) (m : Memory) : Bool :=
  let lowerQuery := lowerChars query.data
  let keywords := keywordsOf query
  if keywords.isEmpty then
    hasSub lowerQuery (lowerChars m.content.data) ||
      hasSub lowerQuery (lowerChars m.category.data) ||
      m.tags.any (fun t => hasSub lowerQuery (lowerChars t.data))
  else
    keywords.any (fun k => keywordHits k m)

/-- The scoring block of `searchMemories`: for each keyword, +1 if it occurs
in the content, +1 if in the category, +1 if in some tag (the media filename
is not scored). -/
def keywordScore (query : String) (m : Memory) : Nat :=
  (keywordsOf query).foldl
    (fun s k =>
      s + (if hasSub k (lowerChars m.content.data) then 1 else 0)
        + (if hasSub k (lowerChars m.category.data) then 1 else 0)
        + (if m.tags.any (fun t => hasSub k (lowerChars t.data)) then 1 else 0))
    0

/-- The sort comparator `(a, b) => b.score !== a.score ? b.score - a.score
: b.mem.timestamp - a.mem.timestamp` as the "sorts before or equal"
Boolean relation on scored entries. -/
def scoredLe (x y : Memory × Nat) : Bool :=
  decide (y.2 < x.2 ∨ (y.2 = x.2 ∧ y.1.timestamp ≤ x.1.timestamp))

/-- Models `searchMemories(query)` over an explicit corpus: filter by
`memoryMatches`, score, sort by descending score then descending timestamp,
return the records. -/
def searchMemories (query : String) (allMemories : List Memory) : List Memory :=
  let filtered := allMemories.filter (memoryMatches query)
  let scored := filtered.map (fun m => (m, keywordScore query m))
  (scored.mergeSort scoredLe).map Prod.fst

/-! ### Retrieval merger (`JarvisService.sendMessage` / `sendMessageStream`)

`const combined = [...vectorResults]; for (const mem of keywordResults)
  if (!combined.find(m => m.id === mem.id)) combined.push(mem);`
-/

def mergeDedup (vectorResults keywordResults : List Memory) : List Memory :=
  keywordResults.foldl
    (fun combined mem =>
      if combined.any (fun m => m.id == mem.id) then combined else combined ++ [mem])
    vectorResults

/-! ### Sanitization (the `sanitizedResults` object literal)

A sanitized record is modelled as the ordered field list of the JS object
literal `{id, content, category, tags, timestamp, type, mediaName}`.
`JsVal.isoDate t` stands for the string `new Date(t).toISOString()`.
-/

inductive JsVal where
  | num : Nat → JsVal
  | str : String → JsVal
  | strList : List String → JsVal
  | isoDate : Nat → JsVal
  | memType : MemoryType → JsVal
  | optStr : Option String → JsVal
deriving DecidableEq

/-- The sanitized form of one record, exactly the keys of the object literal
built in `sendMessage` and (twice, identically) in `sendMessageStream`. -/
def sanitizeFields (m : Memory) : List (String × JsVal) :=
  [("id", JsVal.num m.id),
   ("content", JsVal.str m.content),
   ("category", JsVal.str m.category),
   ("tags", JsVal.strList m.tags),
   ("timestamp", JsVal.isoDate m.timestamp),
   ("type", JsVal.memType m.type),
   ("mediaName", JsVal.optStr m.mediaName)]

/-- The key set of a sanitized record. -/
def sanitizedKeys : List String :=
  ["id", "content", "category", "tags", "timestamp", "type", "mediaName"]

/-! ### Tool execution (`JarvisService.sendMessage` / `sendMessageStream`)

The network collaborators are a `ToolEnv` of `Except`-valued calls:
`Except.error` models a thrown exception / rejected promise.
-/

/-- An uploaded attachment (`Attachment` in `types.ts`): base64 `data`,
MIME type, file name. -/
structure Attachment where
  data : String
  mimeType : String
  name : String
deriving DecidableEq

/-- The loosely typed `call.args` bag; `save_memory` reads `content`,
`category`, `tags`, `search_memory` reads `query`. -/
structure ToolArgs where
  content : String
  category : String
  tags : List String
  query : String
deriving DecidableEq

/-- A model-emitted tool call (`{id, name, args}`). -/
structure FunctionCall where
  id : String
  name : String
  args : ToolArgs
deriving DecidableEq

/-- The result payload of one tool execution. `error` is the JS
`{error: message}` object; `saveSuccess` is `{success: true, memoryId,
status}`; `searchResult` is `{found, results}` with sanitized records. -/
inductive ToolResult where
  | saveSuccess : Nat → String → ToolResult
  | searchResult : Nat → List (List (String × JsVal)) → ToolResult
  | error : String → ToolResult
deriving DecidableEq

/-- The entry pushed onto `functionResponses`:
`{id: call.id, name: call.name, response: {result}}` (the `result` wrapper
key is kept implicit). -/
structure FunctionResponse where
  id : String
  name : String
  result : ToolResult
deriving DecidableEq

/-- A record of one observable interaction with the Memory Store during tool
execution. -/
inductive StoreEvent where
  | createCalled : String → String → List String → MemoryType → Option String →
      Option String → Option String → Option (List ℝ) → StoreEvent
  | vectorSearched : List ℝ → StoreEvent
  | keywordSearched : String → StoreEvent

/-- The external collaborators of the orchestrator: the embedding endpoint
(`/api/embedding`, as the raw `data.embedding || []` outcome) and the Memory
Store (`addMemory`, `vectorSearchMemories`, `searchMemories` of
`supabase-db.ts`).  `Except.error msg` models a thrown exception whose
`.message` is `msg`. -/
structure ToolEnv where
  fetchEmbedding : String → Except String (List ℝ)
  addMemory : String → String → List String → MemoryType → Option String →
    Option String → Option String → Option (List ℝ) → Except String Nat
  vectorSearch : List ℝ → Except String (List Memory)
  keywordSearch : String → Except String (List Memory)

/-- Models `JarvisService.getEmbedding`: propagate a fetch failure, and throw
`'Received empty embedding from API'` when the endpoint returns an empty
vector. -/
def svcGetEmbedding (env : ToolEnv) (text : String) : Except String (List ℝ) :=
  match env.fetchEmbedding text with
  | Except.error e => Except.error e
  | Except.ok v => if v.isEmpty then Except.error "Received empty embedding from API" else Except.ok v

/-- The `try { embedding = await this.getEmbedding(...) } catch { /* continue
without */ }` pattern at both tool call sites: a failed embedding becomes
`none`. -/
def embOpt (env : ToolEnv) (text : String) : Option (List ℝ) :=
  match svcGetEmbedding env text with
  | Except.ok v => some v
  | Except.error _ => none

/-- Reads `attachments[0].data` when attachments are present. -/
def attachData : List Attachment → Option String
  | [] => none
  | a :: _ => some a.data

/-- Reads `attachments[0].mimeType` when attachments are present. -/
def attachMime : List Attachment → Option String
  | [] => none
  | a :: _ => some a.mimeType

/-- Reads `attachments[0].name` when attachments are present. -/
def attachName : List Attachment → Option String
  | [] => none
  | a :: _ => some a.name

/-- The memory type inferred from the first attachment's MIME type
(image/* → image, audio/* → audio, else file), `text` with no attachment. -/
def attachType : List Attachment → MemoryType
  | [] => MemoryType.text
  | a :: _ =>
    if startsWithChars "image/".data a.mimeType.data then MemoryType.image
    else if startsWithChars "audio/".data a.mimeType.data then MemoryType.audio
    else MemoryType.file

/-- The `save_memory` branch: embed the content (non-fatally), derive media
fields from the first attachment, write to the store, report success with a
status telling whether an embedding was attached.  A store failure is the
`Except.error` of the pair; the event log records the attempted write. -/
def runSave (env : ToolEnv) (atts : List Attachment) (args : ToolArgs) :
    Except String ToolResult × List StoreEvent :=
  let emb := embOpt env args.content
  let ev := StoreEvent.createCalled args.content args.category args.tags
    (attachType atts) (attachData atts) (attachMime atts) (attachName atts) emb
  match env.addMemory args.content args.category args.tags (attachType atts)
      (attachData atts) (attachMime atts) (attachName atts) emb with
  | Except.error er => (Except.error er, [ev])
  | Except.ok i =>
    (Except.ok (ToolResult.saveSuccess i
      (if emb.isSome then "Memory saved with vector embedding."
       else "Memory saved (embedding unavailable).")),
     [ev])

/-- The `search_memory` branch: embed the query (non-fatally); vector-search
only when an embedding was obtained; keyword-search; merge with vector
priority; answer with the total count and the sanitized first 8 records. -/
def runSearch (env : ToolEnv) (args : ToolArgs) :
    Except String ToolResult × List StoreEvent :=
  match embOpt env args.query with
  | some e =>
    match env.vectorSearch e with
    | Except.error er => (Except.error er, [StoreEvent.vectorSearched e])
    | Except.ok vec =>
      match env.keywordSearch args.query with
      | Except.error er =>
        (Except.error er, [StoreEvent.vectorSearched e, StoreEvent.keywordSearched args.query])
      | Except.ok kw =>
        let combined := mergeDedup vec kw
        (Except.ok (ToolResult.searchResult combined.length
            ((combined.take 8).map sanitizeFields)),
         [StoreEvent.vectorSearched e, StoreEvent.keywordSearched args.query])
  | none =>
    match env.keywordSearch args.query with
    | Except.error er => (Except.error er, [StoreEvent.keywordSearched args.query])
    | Except.ok kw =>
      let combined := mergeDedup [] kw
      (Except.ok (ToolResult.searchResult combined.length
          ((combined.take 8).map sanitizeFields)),
       [StoreEvent.keywordSearched args.query])

/-- The body of the per-call `try` block: `result` starts as
`{error: 'Unknown tool'}` and is only replaced by the `save_memory` /
`search_memory` branches, so an unrecognized name performs no store call. -/
def executeToolBody (env : ToolEnv) (atts : List Attachment) (call : FunctionCall) :
    Except String ToolResult × List StoreEvent :=
  if call.name = "save_memory" then runSave env atts call.args
  else if call.name = "search_memory" then runSearch env call.args
  else (Except.ok (ToolResult.error "Unknown tool"), [])

/-- The per-call `try/catch`: an exception from the body becomes the tool
result `{error: e.message}`; execution never escapes the call. -/
def executeCallWithLog (env : ToolEnv) (atts : List Attachment) (call : FunctionCall) :
    ToolResult × List StoreEvent :=
  let body := executeToolBody env atts call
  (match body.1 with
   | Except.ok r => r
   | Except.error m => ToolResult.error m,
   body.2)

/-- The tool result submitted for one call. -/
def executeCall (env : ToolEnv) (atts : List Attachment) (call : FunctionCall) : ToolResult :=
  (executeCallWithLog env atts call).1

/-- The `for (const call of functionCalls)` loop: one `{id, name,
response: {result}}` entry per call, in order. -/
def processCalls (env : ToolEnv) (atts : List Attachment) (calls : List FunctionCall) :
    List FunctionResponse :=
  calls.map (fun c => { id := c.id, name := c.name, result := executeCall env atts c })

/-- One model response in a turn: accumulated text plus the (possibly empty)
batch of requested tool calls. -/
structure ModelStep where
  text : String
  functionCalls : List FunctionCall
deriving DecidableEq

/-- The `while (functionCalls.length > 0)` loop of `sendMessage`: given the
current model response and a list of oracles (the model's reply to each
successive `functionResponses` submission), keep executing tools and
resubmitting until a response with no tool calls arrives.  Returns the final
text together with every submitted response batch, or `none` when the oracle
list is exhausted first. -/
def runTurn (env : ToolEnv) (atts : List Attachment) :
    ModelStep → List (List FunctionResponse → ModelStep) →
    Option (String × List (List FunctionResponse))
  | step, oracles =>
    if step.functionCalls.isEmpty then some (step.text, [])
    else
      match oracles with
      | [] => none
      | f :: fs =>
        let resp := processCalls env atts step.functionCalls
        match runTurn env atts (f resp) fs with
        | none => none
        | some (t, log) => some (t, resp :: log)

/-! ### Server chat-session cache (`src/server/routes/chat.ts`)

`const chatSessions = new Map<string, Chat>()`, keyed
`` `${sessionId}-${userId || 'server'}` `` by `getChatSession`; the reset
route runs `if (sessionId && chatSessions.has(sessionId))
chatSessions.delete(sessionId)`.
-/

/-- A cached `Chat` object; only its identity matters here, so it carries the
cache key it was created under. -/
structure Chat where
  key : String
deriving DecidableEq

/-- The `chatSessions` map, as an association list (each key occurs at most
once, as in a JS `Map`). -/
abbrev SessionCache : Type := List (String × Chat)

/-- Builds the composite key, backtick-template `sessionId-userId` with `'server'` for a null user. -/
def cacheKey (sessionId : String) (userId : Option String) : String :=
  sessionId ++ "-" ++ userId.getD "server"

/-- Models `chatSessions.has(k)`. -/
def cacheHas (c : SessionCache) (k : String) : Bool :=
  c.any (fun kv => kv.1 == k)

/-- Models `chatSessions.delete(k)`. -/
def cacheDelete (c : SessionCache) (k : String) : SessionCache :=
  c.filter (fun kv => !(kv.1 == k))

/-- Models `getChatSession(sessionId, userName, userId)`: create and cache a fresh
`Chat` under the composite key when absent, then return the cached one. -/
def getChatSession (c : SessionCache) (sessionId : String) (userId : Option String) :
    SessionCache × Chat :=
  let k := cacheKey sessionId userId
  if cacheHas c k then
    (c, ((c.find? (fun kv => kv.1 == k)).map Prod.snd).getD (Chat.mk k))
  else
    (c ++ [(k, Chat.mk k)], Chat.mk k)

/-- The `POST /api/chat/reset` handler's effect on the cache:
`if (sessionId && chatSessions.has(sessionId)) chatSessions.delete(sessionId)`. -/
def resetSession (c : SessionCache) (sessionId : String) : SessionCache :=
  if sessionId != "" && cacheHas c sessionId then cacheDelete c sessionId else c

/-- Whether the cache holds a session entry created for `sessionId` (every
such entry's key is `sessionId ++ "-" ++ uid` for some uid). -/
def holdsSessionFor (c : SessionCache) (sessionId : String) : Bool :=
  c.any (fun kv => startsWithChars (sessionId.data ++ ['-']) kv.1.data)

/-! ### Streaming transport (`POST /api/chat/message-stream`)

The handler writes `connected`, then a `chunk` event per non-empty text
chunk, then — when the model requested tools — one `functionCalls` event
immediately followed by `done` with `needsFunctionResponse: true`, else a
single `done` without the flag.
-/

/-- One chunk of the model's stream: optional text and any function calls it
carries. -/
structure ModelStreamChunk where
  text : Option String
  functionCalls : List FunctionCall
deriving DecidableEq

/-- A server-sent event of the stream route.  `done`'s second component is
the `needsFunctionResponse` field: `some true` when present, `none` when the
JSON carries no such key. -/
inductive SSEEvent where
  | connected : SSEEvent
  | chunk : String → SSEEvent
  | functionCalls : List FunctionCall → SSEEvent
  | done : String → Option Bool → SSEEvent
  | error : String → SSEEvent
deriving DecidableEq

/-- The text of a stream chunk when it is emitted (`if (chunkText)` skips
`undefined` and `''`). -/
def chunkTextOf (c : ModelStreamChunk) : Option String :=
  match c.text with
  | some t => if t = "" then none else some t
  | none => none

/-- The non-error path of the stream handler, from the model's chunk sequence
to the emitted event list. -/
def streamHandler (chunks : List ModelStreamChunk) : List SSEEvent :=
  let textPieces := chunks.filterMap chunkTextOf
  let fullText := textPieces.foldl (fun s t => s ++ t) ""
  let collected := chunks.foldl (fun acc c => acc ++ c.functionCalls) []
  SSEEvent.connected ::
    (textPieces.map SSEEvent.chunk ++
      (if collected.isEmpty then [SSEEvent.done fullText none]
       else [SSEEvent.functionCalls collected, SSEEvent.done fullText (some true)]))

/-! ### Concrete fixtures used by counterexamples and witnesses -/

/-- A plain text memory with no media and no embedding. -/
def mkMem (id : Nat) (content : String) (timestamp : Nat) : Memory :=
  { id := id, content := content, category := "general", tags := [],
    timestamp := timestamp, type := MemoryType.text, mediaData := none,
    mediaMimeType := none, mediaName := none, embedding := none }

def memA : Memory := mkMem 1 "alpha" 100

def memB : Memory := mkMem 2 "beta" 90

def memC : Memory := mkMem 3 "gamma" 80

/-- A record distinct from `memA` but sharing its id. -/
def memA2 : Memory := mkMem 1 "alpha again" 70

/-! ### Helper lemmas about the merger -/

lemma mergeDedup_cons (vec : List Memory) (hd : Memory) (kws : List Memory) :
    mergeDedup vec (hd :: kws) =
      mergeDedup (if vec.any (fun x => x.id == hd.id) then vec else vec ++ [hd]) kws := by
  simp only [mergeDedup, List.foldl_cons]

lemma mergeDedup_extends (kw vec : List Memory) :
    ∃ rest, mergeDedup vec kw = vec ++ rest := by
  induction kw generalizing vec with
  | nil => exact ⟨[], by simp [mergeDedup]⟩
  | cons hd kws ih =>
    rw [mergeDedup_cons]
    by_cases h : vec.any (fun x => x.id == hd.id)
    · rw [if_pos h]; exact ih vec
    · rw [if_neg h]
      rcases ih (vec ++ [hd]) with ⟨r, hr⟩
      exact ⟨hd :: r, by simpa using hr⟩

lemma mergeDedup_sublist (kw vec : List Memory) :
    (mergeDedup vec kw).Sublist (vec ++ kw) := by
  induction kw generalizing vec with
  | nil => simp [mergeDedup]
  | cons hd kws ih =>
    rw [mergeDedup_cons]
    by_cases h : vec.any (fun x => x.id == hd.id)
    · rw [if_pos h]
      refine (ih vec).trans ?_
      refine List.Sublist.append_left ?_ vec
      exact List.sublist_cons_self hd kws
    · rw [if_neg h]
      have := ih (vec ++ [hd])
      simpa using this

lemma mergeDedup_mem_id (kw vec : List Memory) :
    ∀ m ∈ kw, m.id ∈ (mergeDedup vec kw).map Memory.id := by
  induction kw generalizing vec with
  | nil => intro m hm; simp at hm
  | cons hd kws ih =>
    intro m hm
    rw [mergeDedup_cons]
    rcases List.mem_cons.mp hm with rfl | hmem
    · by_cases h : vec.any (fun x => x.id == m.id)
      · rw [if_pos h]
        rcases mergeDedup_extends kws vec with ⟨rest, he⟩
        rw [he, List.map_append]
        rcases List.any_eq_true.mp h with ⟨x, hx, hxe⟩
        have hxid : x.id = m.id := by simpa using hxe
        exact List.mem_append_left _ (List.mem_map.mpr ⟨x, hx, hxid⟩)
      · rw [if_neg h]
        rcases mergeDedup_extends kws (vec ++ [m]) with ⟨rest, he⟩
        rw [he]; simp
    · exact ih _ m hmem

lemma mergeDedup_nodup_ids (kw vec : List Memory)
    (h : (vec.map Memory.id).Nodup) :
    ((mergeDedup vec kw).map Memory.id).Nodup := by
  induction kw generalizing vec with
  | nil => simpa [mergeDedup] using h
  | cons hd kws ih =>
    rw [mergeDedup_cons]
    by_cases hany : vec.any (fun x => x.id == hd.id)
    · rw [if_pos hany]; exact ih vec h
    · rw [if_neg hany]
      refine ih (vec ++ [hd]) ?_
      rw [List.map_append]
      refine List.Nodup.append h (by simp) ?_
      intro a ha hb
      simp only [List.map_cons, List.map_nil, List.mem_singleton] at hb
      subst hb
      rcases List.mem_map.mp ha with ⟨x, hx, hxid⟩
      exact hany (List.any_eq_true.mpr ⟨x, hx, by simp [hxid]⟩)

/-- C3 (amended): `mergeDedup` puts the vector results first unchanged,
preserves the relative order of both inputs (the output is a sublist of
`vec ++ kw`), appends exactly the keyword results whose id is not already
among the accumulated results (so every keyword result's id occurs in the
output), the list handed to the model is truncated to at most 8 records, and
— provided the vector results carry pairwise distinct ids — the output has no
duplicate ids.  The concrete instance `[A,B] ++ [B,C] = [A,B,C]` holds. -/
theorem merge_dedup_properties :
    (∀ vec kw : List Memory,
      (∃ rest, mergeDedup vec kw = vec ++ rest)
      ∧ (mergeDedup vec kw).Sublist (vec ++ kw)
      ∧ (∀ m ∈ kw, m.id ∈ (mergeDedup vec kw).map Memory.id)
      ∧ ((mergeDedup vec kw).take 8).length ≤ 8
      ∧ ((vec.map Memory.id).Nodup → ((mergeDedup vec kw).map Memory.id).Nodup))
    ∧ mergeDedup [memA, memB] [memB, memC] = [memA, memB, memC] := by
  refine ⟨fun vec kw => ⟨mergeDedup_extends kw vec, mergeDedup_sublist kw vec,
    mergeDedup_mem_id kw vec, List.length_take_le 8 _,
    fun h => mergeDedup_nodup_ids kw vec h⟩, rfl⟩

/-- C3, counterexample to the claim as stated: over arbitrary result lists
the merge does NOT guarantee duplicate-free ids — duplicate ids already
present among the vector results survive, since the dedup check is applied
only to keyword results. -/
theorem merge_dedup_duplicate_vector_ids :
    (mergeDedup [memA, memA2] []).map Memory.id = [1, 1]
    ∧ ¬ ((mergeDedup [memA, memA2] []).map Memory.id).Nodup := by
  constructor
  · rfl
  · decide

/-- Witness for `merge_dedup_properties` at the claim's own example. -/
theorem merge_dedup_properties_witness :
    (mergeDedup [memA, memB] [memB, memC]).Sublist ([memA, memB] ++ [memB, memC])
    ∧ memB.id ∈ (mergeDedup [memA, memB] [memB, memC]).map Memory.id
    ∧ ((mergeDedup [memA, memB] [memB, memC]).map Memory.id).Nodup :=
  ⟨(merge_dedup_properties.1 [memA, memB] [memB, memC]).2.1,
   (merge_dedup_properties.1 [memA, memB] [memB, memC]).2.2.1 memB
     (List.mem_cons_self memB [memC]),
   (merge_dedup_properties.1 [memA, memB] [memB, memC]).2.2.2.2 (by decide)⟩

/-! ### Helper lemmas about cosine similarity -/

lemma sumSq_nonneg (a : List ℝ) : 0 ≤ sumSq a := by
  induction a with
  | nil => simp [sumSq]
  | cons x xs ih => simpa [sumSq] using add_nonneg (mul_self_nonneg x) ih

lemma sumSq_pos (a : List ℝ) (h : ∃ x ∈ a, x ≠ 0) : 0 < sumSq a := by
  induction a with
  | nil => simp at h
  | cons x xs ih =>
    rcases h with ⟨y, hy, hy0⟩
    rcases List.mem_cons.mp hy with rfl | hmem
    · have hx : 0 < y * y := mul_self_pos.mpr hy0
      simpa [sumSq] using add_pos_of_pos_of_nonneg hx (sumSq_nonneg xs)
    · have hx : 0 < sumSq xs := ih ⟨y, hmem, hy0⟩
      simpa [sumSq] using add_pos_of_nonneg_of_pos (mul_self_nonneg x) hx

lemma sumSq_of_zero (a : List ℝ) (h : ∀ x ∈ a, x = 0) : sumSq a = 0 := by
  induction a with
  | nil => simp [sumSq]
  | cons x xs ih =>
    have hx : x = 0 := h x (List.mem_cons_self x xs)
    have hxs : sumSq xs = 0 := ih (fun y hy => h y (List.mem_cons_of_mem x hy))
    simp [sumSq, hx, hxs]

lemma magnitude_zero_of_zero (a : List ℝ) (h : ∀ x ∈ a, x = 0) : magnitude a = 0 := by
  simp [magnitude, sumSq_of_zero a h]

lemma magnitude_ne_zero (a : List ℝ) (h : ∃ x ∈ a, x ≠ 0) : magnitude a ≠ 0 := by
  have hd := sumSq_pos a h
  simpa [magnitude] using ne_of_gt (Real.sqrt_pos.mpr hd)

lemma dotProd_comm_of_length (a b : List ℝ) (h : a.length = b.length) :
    dotProd a b = dotProd b a := by
  induction a generalizing b with
  | nil =>
    cases b with
    | nil => rfl
    | cons y ys => simp at h
  | cons x xs ih =>
    cases b with
    | nil => simp at h
    | cons y ys =>
      simp only [List.length_cons, Nat.add_right_cancel_iff] at h
      simp [dotProd, ih ys h, mul_comm]

lemma dotProd_self (a : List ℝ) : dotProd a a = some (sumSq a) := by
  induction a with
  | nil => rfl
  | cons x xs ih => simp [dotProd, sumSq, ih]

lemma dotProd_isSome_of_le (a b : List ℝ) (h : a.length ≤ b.length) :
    ∃ d, dotProd a b = some d := by
  induction a generalizing b with
  | nil => exact ⟨0, rfl⟩
  | cons x xs ih =>
    cases b with
    | nil => simp at h
    | cons y ys =>
      simp only [List.length_cons] at h
      rcases ih ys (by omega) with ⟨d, hd⟩
      exact ⟨x * y + d, by simp [dotProd, hd]⟩

/-- C7 (amended): `cosineSimilarity` is symmetric for every pair of
equal-length vectors; it is the real `1` on any non-zero vector paired with
itself; and the zero-magnitude guard makes it the real `0` whenever either
argument is the zero vector (including the empty vector).  Across unequal
lengths the source can return NaN in one direction and a real number in the
other, so unconditional symmetry fails — see
`cosine_similarity_asymmetric_lengths`. -/
theorem cosine_similarity_properties :
    (∀ a b : List ℝ, a.length = b.length →
        cosineSimilarity a b = cosineSimilarity b a)
    ∧ (∀ a : List ℝ, (∃ x ∈ a, x ≠ 0) → cosineSimilarity a a = some 1)
    ∧ (∀ a b : List ℝ, ((∀ x ∈ a, x = 0) ∨ (∀ x ∈ b, x = 0)) →
        cosineSimilarity a b = some 0) := by
  refine ⟨fun a b hlen => ?_, fun a h => ?_, fun a b h => ?_⟩
  · by_cases hz : magnitude a = 0 ∨ magnitude b = 0
    · rw [cosineSimilarity, if_pos hz, cosineSimilarity, if_pos (Or.symm hz)]
    · rw [cosineSimilarity, if_neg hz, cosineSimilarity,
        if_neg (fun hc => hz (Or.symm hc)), dotProd_comm_of_length a b hlen,
        mul_comm]
  · have hd := sumSq_pos a h
    have hm := magnitude_ne_zero a h
    rw [cosineSimilarity, if_neg (by tauto), dotProd_self, Option.map_some',
      magnitude, Real.mul_self_sqrt (le_of_lt hd), div_self (ne_of_gt hd)]
  · rcases h with h | h
    · rw [cosineSimilarity, if_pos (Or.inl (magnitude_zero_of_zero a h))]
    · rw [cosineSimilarity, if_pos (Or.inr (magnitude_zero_of_zero b h))]

/-- C7, counterexample to the claim as stated: symmetry fails across
unequal lengths.  `cosineSimilarity([1,2],[1])` multiplies `2` by the
undefined `vecB[1]` and returns NaN (`none`), while the swapped call
`cosineSimilarity([1],[1,2])` returns a real number, so
`similarity(a,b) == similarity(b,a)` is false for this pair (in JavaScript a
NaN does not even equal itself). -/
theorem cosine_similarity_asymmetric_lengths :
    cosineSimilarity [(1 : ℝ), 2] [(1 : ℝ)] = none
    ∧ (cosineSimilarity [(1 : ℝ)] [(1 : ℝ), 2]).isSome = true
    ∧ cosineSimilarity [(1 : ℝ), 2] [(1 : ℝ)] ≠ cosineSimilarity [(1 : ℝ)] [(1 : ℝ), 2] := by
  have h1 : magnitude [(1 : ℝ), 2] ≠ 0 :=
    magnitude_ne_zero _ ⟨1, by simp, one_ne_zero⟩
  have h2 : magnitude [(1 : ℝ)] ≠ 0 :=
    magnitude_ne_zero _ ⟨1, by simp, one_ne_zero⟩
  have hab : cosineSimilarity [(1 : ℝ), 2] [(1 : ℝ)] = none := by
    rw [cosineSimilarity, if_neg (by tauto)]
    simp [dotProd]
  have hba : (cosineSimilarity [(1 : ℝ)] [(1 : ℝ), 2]).isSome = true := by
    rw [cosineSimilarity, if_neg (by tauto)]
    simp [dotProd]
  refine ⟨hab, hba, fun heq => ?_⟩
  rw [hab] at heq
  rw [← heq] at hba
  simp at hba

/-- Witness for `cosine_similarity_properties` on concrete vectors. -/
theorem cosine_similarity_properties_witness :
    cosineSimilarity [(1 : ℝ)] [(2 : ℝ)] = cosineSimilarity [(2 : ℝ)] [(1 : ℝ)]
    ∧ cosineSimilarity [(1 : ℝ)] [(1 : ℝ)] = some 1
    ∧ cosineSimilarity [(0 : ℝ)] [(1 : ℝ)] = some 0 :=
  ⟨cosine_similarity_properties.1 [(1 : ℝ)] [(2 : ℝ)] rfl,
   cosine_similarity_properties.2.1 [(1 : ℝ)]
      ⟨1, List.mem_singleton.mpr rfl, one_ne_zero⟩,
   cosine_similarity_properties.2.2 [(0 : ℝ)] [(1 : ℝ)]
      (Or.inl (fun _ hx => List.mem_singleton.mp hx))⟩

/-! ### Helper lemmas about the vector search -/

lemma vectorSearch_unfold (q : List ℝ) (mems : List Memory) (limit : Nat) :
    vectorSearchMemories q mems limit =
      ((((mems.filter (fun m => m.embedding.isSome)).map
          (fun m => (m, simScore q m))).mergeSort simSortLe).take limit).map
        Prod.fst := rfl

/-- The comparator restricted to real scores, totalized over all entries:
this is what the JS comparator computes whenever no NaN score is involved. -/
noncomputable def simRealLe (x y : Memory × Option ℝ) : Bool :=
  decide (y.2.getD 0 ≤ x.2.getD 0)

lemma simRealLe_trans :
    ∀ a b c : Memory × Option ℝ, simRealLe a b = true → simRealLe b c = true →
      simRealLe a c = true := by
  intro a b c hab hbc
  simp only [simRealLe, decide_eq_true_eq] at *
  exact le_trans hbc hab

lemma simRealLe_total :
    ∀ a b : Memory × Option ℝ, (simRealLe a b || simRealLe b a) = true := by
  intro a b
  simp only [simRealLe, Bool.or_eq_true, decide_eq_true_eq]
  exact le_total (b.2.getD 0) (a.2.getD 0)

lemma mergeSort_congr {α : Type} (r s : α → α → Bool) (l : List α)
    (h : ∀ a ∈ l, ∀ b ∈ l, r a b = s a b) : l.mergeSort r = l.mergeSort s := by
  have h2 : ∀ a ∈ l, ∀ b ∈ l, r a b = s (id a) (id b) := h
  have h3 : (l.mergeSort r).map id = (l.map id).mergeSort s := List.map_mergeSort h2
  simpa using h3

/-- The claim's "ordered by descending cosine similarity": both similarity
scores are real numbers and the later record's does not exceed the earlier
record's.  A NaN similarity is comparable to nothing, so no arrangement
containing one is descending. -/
def simGe (q : List ℝ) (m1 m2 : Memory) : Prop :=
  ∃ s1 s2, simScore q m1 = some s1 ∧ simScore q m2 = some s2 ∧ s2 ≤ s1

lemma simScore_isSome (q : List ℝ) (m : Memory) (e : List ℝ)
    (he : m.embedding = some e) (hlen : q.length ≤ e.length) :
    ∃ s, simScore q m = some s := by
  rw [simScore, he, Option.getD_some]
  by_cases hz : magnitude q = 0 ∨ magnitude e = 0
  · exact ⟨0, by rw [cosineSimilarity, if_pos hz]⟩
  · rcases dotProd_isSome_of_le q e hlen with ⟨d, hd⟩
    refine ⟨d / (magnitude q * magnitude e), ?_⟩
    rw [cosineSimilarity, if_neg hz, hd]
    rfl

/-- C5 (amended): the local vector search returns at most `limit` records,
drawn (as a sub-multiset) from exactly the records whose `embedding` field
is present, every returned record has an embedding, and the limit defaults
to 5; provided the query vector is no longer than any present embedding in
the corpus (so every similarity score is a real number rather than NaN),
the returned order is descending cosine similarity against the query
vector. -/
theorem vector_search_properties :
    ∀ (q : List ℝ) (mems : List Memory) (limit : Nat),
      ((vectorSearchMemories q mems limit).length ≤ limit
        ∧ (vectorSearchMemories q mems limit).Subperm
            (mems.filter (fun m => m.embedding.isSome))
        ∧ (vectorSearchMemories q mems limit).all
            (fun m => m.embedding.isSome) = true
        ∧ vectorSearchMemoriesDefault q mems = vectorSearchMemories q mems 5)
      ∧ ((∀ m ∈ mems, ∀ e, m.embedding = some e → q.length ≤ e.length) →
          List.Pairwise (simGe q) (vectorSearchMemories q mems limit)) := by
  intro q mems limit
  have hfstmap : ∀ l : List Memory,
      (l.map (fun m => (m, simScore q m))).map Prod.fst = l := by
    intro l
    induction l with
    | nil => rfl
    | cons x xs ih => simp [ih]
  have hperm := List.mergeSort_perm
    ((mems.filter (fun m => m.embedding.isSome)).map (fun m => (m, simScore q m)))
    simSortLe
  have h1 : (vectorSearchMemories q mems limit).Sublist
      ((((mems.filter (fun m => m.embedding.isSome)).map
          (fun m => (m, simScore q m))).mergeSort simSortLe).map Prod.fst) := by
    rw [vectorSearch_unfold]
    exact (List.take_sublist _ _).map Prod.fst
  have h2 : ((((mems.filter (fun m => m.embedding.isSome)).map
      (fun m => (m, simScore q m))).mergeSort simSortLe).map Prod.fst).Perm
      (mems.filter (fun m => m.embedding.isSome)) := by
    have := hperm.map Prod.fst
    rwa [hfstmap] at this
  have hsub : (vectorSearchMemories q mems limit).Subperm
      (mems.filter (fun m => m.embedding.isSome)) :=
    List.Subperm.trans h1.subperm h2.subperm
  refine ⟨⟨?_, hsub, ?_, rfl⟩, ?_⟩
  · rw [vectorSearch_unfold, List.length_map]
    exact List.length_take_le _ _
  · rw [List.all_eq_true]
    intro m hm
    exact (List.mem_filter.mp (hsub.subset hm)).2
  · intro hlen
    have hsome : ∀ p ∈ (mems.filter (fun m => m.embedding.isSome)).map
        (fun m => (m, simScore q m)), ∃ s, p.2 = some s := by
      intro p hp
      rcases List.mem_map.mp hp with ⟨m, hm, rfl⟩
      have hmem : m ∈ mems := (List.mem_filter.mp hm).1
      have hs : m.embedding.isSome := (List.mem_filter.mp hm).2
      rcases Option.isSome_iff_exists.mp hs with ⟨e, he⟩
      exact simScore_isSome q m e he (hlen m hmem e he)
    have hcongr : ((mems.filter (fun m => m.embedding.isSome)).map
        (fun m => (m, simScore q m))).mergeSort simSortLe =
        ((mems.filter (fun m => m.embedding.isSome)).map
        (fun m => (m, simScore q m))).mergeSort simRealLe := by
      refine mergeSort_congr _ _ _ ?_
      intro a ha b hb
      rcases hsome a ha with ⟨sa, hsa⟩
      rcases hsome b hb with ⟨sb, hsb⟩
      simp [simSortLe, simRealLe, hsa, hsb]
    have hsorted := List.sorted_mergeSort simRealLe_trans simRealLe_total
      ((mems.filter (fun m => m.embedding.isSome)).map (fun m => (m, simScore q m)))
    have hscore : ∀ p ∈ ((mems.filter (fun m => m.embedding.isSome)).map
        (fun m => (m, simScore q m))).mergeSort simRealLe,
        p.2 = simScore q p.1 := by
      intro p hp
      rcases List.mem_map.mp (List.mem_mergeSort.mp hp) with ⟨m, _, rfl⟩
      rfl
    have hsomemem : ∀ p ∈ ((mems.filter (fun m => m.embedding.isSome)).map
        (fun m => (m, simScore q m))).mergeSort simRealLe, ∃ s, p.2 = some s :=
      fun p hp => hsome p (List.mem_mergeSort.mp hp)
    have hS : List.Pairwise (fun x y : Memory × Option ℝ => simGe q x.1 y.1)
        (((mems.filter (fun m => m.embedding.isSome)).map
          (fun m => (m, simScore q m))).mergeSort simRealLe) := by
      refine List.Pairwise.imp_of_mem ?_ hsorted
      intro a b ha hb hab
      rcases hsomemem a ha with ⟨sa, hsa⟩
      rcases hsomemem b hb with ⟨sb, hsb⟩
      have hsa2 : simScore q a.1 = some sa := by rw [← hscore a ha, hsa]
      have hsb2 : simScore q b.1 = some sb := by rw [← hscore b hb, hsb]
      refine ⟨sa, sb, hsa2, hsb2, ?_⟩
      simp only [simRealLe, decide_eq_true_eq, hsa, hsb, Option.getD_some] at hab
      exact hab
    rw [vectorSearch_unfold, hcongr]
    exact List.pairwise_map.mpr (hS.sublist (List.take_sublist _ _))

/-- A record whose embedding is shorter than the two-entry query vector of
`vector_search_nan_score`; its similarity score there is NaN. -/
def memEmbNaN : Memory :=
  { id := 10, content := "short embedding", category := "general", tags := [],
    timestamp := 30, type := MemoryType.text, mediaData := none,
    mediaMimeType := none, mediaName := none, embedding := some [(1 : ℝ)] }

/-- A record whose embedding is long enough for a real similarity score. -/
def memEmbOk : Memory :=
  { id := 11, content := "long embedding", category := "general", tags := [],
    timestamp := 20, type := MemoryType.text, mediaData := none,
    mediaMimeType := none, mediaName := none, embedding := some [(1 : ℝ), 0] }

/-- C5, counterexample to the claim as stated: with the query vector
`[1, 1]` the record `memEmbNaN` (embedding `[1]`) receives the similarity
score NaN, because the dot product reads the undefined `vecB[1]`.  A NaN
score compares to nothing, so no arrangement of the two returned records —
in particular not the search output, whatever order the
implementation-defined sort picks — is ordered by descending cosine
similarity. -/
theorem vector_search_nan_score :
    simScore [(1 : ℝ), 1] memEmbNaN = none
    ∧ ¬ List.Pairwise (simGe [(1 : ℝ), 1])
        (vectorSearchMemories [(1 : ℝ), 1] [memEmbNaN, memEmbOk] 5) := by
  have hnone : simScore [(1 : ℝ), 1] memEmbNaN = none := by
    have h1 : magnitude [(1 : ℝ), 1] ≠ 0 :=
      magnitude_ne_zero _ ⟨1, by simp, one_ne_zero⟩
    have h2 : magnitude [(1 : ℝ)] ≠ 0 :=
      magnitude_ne_zero _ ⟨1, by simp, one_ne_zero⟩
    show cosineSimilarity [(1 : ℝ), 1] [(1 : ℝ)] = none
    rw [cosineSimilarity, if_neg (by tauto)]
    simp [dotProd]
  refine ⟨hnone, fun hpair => ?_⟩
  have hperm := List.mergeSort_perm
    (([memEmbNaN, memEmbOk].filter (fun m => m.embedding.isSome)).map
      (fun m => (m, simScore [(1 : ℝ), 1] m))) simSortLe
  have hlen2 : ((([memEmbNaN, memEmbOk].filter (fun m => m.embedding.isSome)).map
      (fun m => (m, simScore [(1 : ℝ), 1] m))).mergeSort simSortLe).length = 2 := by
    rw [List.length_mergeSort]
    rfl
  have htake : ((([memEmbNaN, memEmbOk].filter (fun m => m.embedding.isSome)).map
      (fun m => (m, simScore [(1 : ℝ), 1] m))).mergeSort simSortLe).take 5 =
      (([memEmbNaN, memEmbOk].filter (fun m => m.embedding.isSome)).map
        (fun m => (m, simScore [(1 : ℝ), 1] m))).mergeSort simSortLe :=
    List.take_of_length_le (by rw [hlen2]; omega)
  have hpermres : (vectorSearchMemories [(1 : ℝ), 1] [memEmbNaN, memEmbOk] 5).Perm
      [memEmbNaN, memEmbOk] := by
    rw [vectorSearch_unfold, htake]
    have h := hperm.map Prod.fst
    have h2 : ((([memEmbNaN, memEmbOk].filter (fun m => m.embedding.isSome)).map
        (fun m => (m, simScore [(1 : ℝ), 1] m))).map Prod.fst) =
        [memEmbNaN, memEmbOk] := rfl
    rwa [h2] at h
  have hmemN : memEmbNaN ∈ vectorSearchMemories [(1 : ℝ), 1] [memEmbNaN, memEmbOk] 5 :=
    hpermres.mem_iff.mpr (by simp)
  have hmemO : memEmbOk ∈ vectorSearchMemories [(1 : ℝ), 1] [memEmbNaN, memEmbOk] 5 :=
    hpermres.mem_iff.mpr (by simp)
  have hne : memEmbNaN ≠ memEmbOk := by
    intro h
    have := congrArg Memory.id h
    simp [memEmbNaN, memEmbOk] at this
  have hsymrel : Symmetric
      (fun a b => simGe [(1 : ℝ), 1] a b ∨ simGe [(1 : ℝ), 1] b a) :=
    fun a b h => h.elim Or.inr Or.inl
  have hpair2 : List.Pairwise
      (fun a b => simGe [(1 : ℝ), 1] a b ∨ simGe [(1 : ℝ), 1] b a)
      (vectorSearchMemories [(1 : ℝ), 1] [memEmbNaN, memEmbOk] 5) :=
    hpair.imp (fun h => Or.inl h)
  have hR := List.Pairwise.forall hsymrel hpair2 hmemN hmemO hne
  rcases hR with ⟨s1, s2, hs1, _, _⟩ | ⟨s1, s2, _, hs2, _⟩
  · rw [hnone] at hs1
    exact Option.noConfusion hs1
  · rw [hnone] at hs2
    exact Option.noConfusion hs2

/-- Witness for `vector_search_properties` on a concrete corpus whose
embeddings are at least as long as the query vector. -/
theorem vector_search_properties_witness :
    (vectorSearchMemories [(1 : ℝ)] [memEmbOk] 5).length ≤ 5
    ∧ List.Pairwise (simGe [(1 : ℝ)])
        (vectorSearchMemories [(1 : ℝ)] [memEmbOk] 5) :=
  ⟨(vector_search_properties [(1 : ℝ)] [memEmbOk] 5).1.1,
   (vector_search_properties [(1 : ℝ)] [memEmbOk] 5).2 (by
      intro m hm e he
      rw [List.mem_singleton] at hm
      subst hm
      rw [show memEmbOk.embedding = some [(1 : ℝ), 0] from rfl] at he
      cases he
      decide)⟩

/-! ### Helper lemmas about the keyword search -/

/-- The claim's phrasing of the score: the number of (token, field) substring
hits, summed over the three scored fields content, category and tags. -/
def claimScore (query : String) (m : Memory) : Nat :=
  ((keywordsOf query).map (fun k =>
      (if hasSub k (lowerChars m.content.data) then 1 else 0)
    + (if hasSub k (lowerChars m.category.data) then 1 else 0)
    + (if m.tags.any (fun t => hasSub k (lowerChars t.data)) then 1 else 0))).sum

lemma foldl_add_sum (f : List Char → Nat) :
    ∀ (l : List (List Char)) (s : Nat),
      l.foldl (fun a k => a + f k) s = s + (l.map f).sum := by
  intro l
  induction l with
  | nil => intro s; simp
  | cons x xs ih => intro s; simp [ih, Nat.add_assoc]

lemma keywordScore_eq_claimScore (query : String) (m : Memory) :
    keywordScore query m = claimScore query m := by
  have h := foldl_add_sum
    (fun k =>
      (if hasSub k (lowerChars m.content.data) then 1 else 0)
    + (if hasSub k (lowerChars m.category.data) then 1 else 0)
    + (if m.tags.any (fun t => hasSub k (lowerChars t.data)) then 1 else 0))
    (keywordsOf query) 0
  simpa [keywordScore, claimScore, Nat.add_assoc] using h

lemma memoryMatches_of_keywords (query : String) (m : Memory)
    (h : keywordsOf query ≠ []) :
    memoryMatches query m = (keywordsOf query).any (fun k => keywordHits k m) := by
  have hne : (keywordsOf query).isEmpty = false := by
    cases hk : keywordsOf query with
    | nil => exact absurd hk h
    | cons a l => rfl
  simp [memoryMatches, hne]

lemma scoredLe_trans :
    ∀ a b c : Memory × Nat, scoredLe a b = true → scoredLe b c = true →
      scoredLe a c = true := by
  intro a b c hab hbc
  simp only [scoredLe, decide_eq_true_eq] at *
  omega

lemma scoredLe_total :
    ∀ a b : Memory × Nat, (scoredLe a b || scoredLe b a) = true := by
  intro a b
  simp only [scoredLe, Bool.or_eq_true, decide_eq_true_eq]
  omega

lemma mergeSort_single {α : Type} (le : α → α → Bool) (a : α) :
    [a].mergeSort le = [a] :=
  List.perm_singleton.mp (List.mergeSort_perm [a] le)

/-- C6 (amended): whenever at least one whitespace token of the query
survives the length-2 cutoff, the local keyword search returns exactly
(as a permutation) the records for which some surviving token is a
case-insensitive substring of the content, category, some tag, or media
filename; the order is descending score with ties broken by descending
timestamp; and the score is the count of (token, field) substring hits
across content, category and tags. -/
theorem keyword_search_properties :
    ∀ (query : String) (mems : List Memory), keywordsOf query ≠ [] →
      (searchMemories query mems).Perm
        (mems.filter (fun m => (keywordsOf query).any (fun k => keywordHits k m)))
      ∧ List.Pairwise
          (fun m1 m2 => keywordScore query m2 < keywordScore query m1
            ∨ (keywordScore query m2 = keywordScore query m1
                ∧ m2.timestamp ≤ m1.timestamp))
          (searchMemories query mems)
      ∧ (∀ m, keywordScore query m = claimScore query m) := by
  intro query mems h
  have hfilter : mems.filter (memoryMatches query) =
      mems.filter (fun m => (keywordsOf query).any (fun k => keywordHits k m)) := by
    apply List.filter_congr
    intro m _
    exact memoryMatches_of_keywords query m h
  have hfstmap : ∀ l : List Memory,
      (l.map (fun m => (m, keywordScore query m))).map Prod.fst = l := by
    intro l
    induction l with
    | nil => rfl
    | cons x xs ih => simp [ih]
  have hperm := List.mergeSort_perm
    ((mems.filter (memoryMatches query)).map (fun m => (m, keywordScore query m)))
    scoredLe
  have hdef : searchMemories query mems =
      (((mems.filter (memoryMatches query)).map
        (fun m => (m, keywordScore query m))).mergeSort scoredLe).map Prod.fst := rfl
  refine ⟨?_, ?_, fun m => keywordScore_eq_claimScore query m⟩
  · rw [hdef, ← hfilter]
    have := hperm.map Prod.fst
    rwa [hfstmap] at this
  · have hsorted := List.sorted_mergeSort scoredLe_trans scoredLe_total
      ((mems.filter (memoryMatches query)).map (fun m => (m, keywordScore query m)))
    have hscore : ∀ p ∈ ((mems.filter (memoryMatches query)).map
        (fun m => (m, keywordScore query m))).mergeSort scoredLe,
        p.2 = keywordScore query p.1 := by
      intro p hp
      rcases List.mem_map.mp (List.mem_mergeSort.mp hp) with ⟨m, _, rfl⟩
      rfl
    have hS : List.Pairwise
        (fun x y : Memory × Nat => keywordScore query y.1 < keywordScore query x.1
          ∨ (keywordScore query y.1 = keywordScore query x.1
              ∧ y.1.timestamp ≤ x.1.timestamp))
        (((mems.filter (memoryMatches query)).map
          (fun m => (m, keywordScore query m))).mergeSort scoredLe) := by
      refine List.Pairwise.imp_of_mem ?_ hsorted
      intro a b ha hb hab
      rw [← hscore a ha, ← hscore b hb]
      simpa [scoredLe] using hab
    rw [hdef]
    exact List.pairwise_map.mpr hS

/-- A memory whose content is the two-character string `"ab"`. -/
def memAB : Memory := mkMem 4 "ab" 60

/-- A memory matching the spec's keyword-recall example. -/
def memMango : Memory := mkMem 5 "I love mangoes and work at Acme" 50

/-- C6, counterexample to the claim as stated: for the query `"ab"` no
whitespace token survives the length-2 cutoff, so the claim's described
result set is empty, yet the code's fallback (whole-query substring match)
returns the record whose content contains `"ab"`. -/
theorem keyword_search_short_query_fallback :
    searchMemories "ab" [memAB] = [memAB]
    ∧ [memAB].filter (fun m => (keywordsOf "ab").any (fun k => keywordHits k m)) = []
    ∧ keywordsOf "ab" = [] := by
  refine ⟨?_, rfl, rfl⟩
  have h1 : searchMemories "ab" [memAB] =
      ([(memAB, keywordScore "ab" memAB)].mergeSort scoredLe).map Prod.fst := rfl
  rw [h1, mergeSort_single]
  rfl

/-- Witness for `keyword_search_properties` on the spec's own recall
example. -/
theorem keyword_search_properties_witness :
    (searchMemories "mangoes" [memMango]).Perm
      ([memMango].filter
        (fun m => (keywordsOf "mangoes").any (fun k => keywordHits k m)))
    ∧ keywordScore "mangoes" memMango = claimScore "mangoes" memMango :=
  ⟨(keyword_search_properties "mangoes" [memMango] (by decide)).1,
   (keyword_search_properties "mangoes" [memMango] (by decide)).2.2 memMango⟩

/-- C4: evaluating the code at the failing input.  A session created by
`getChatSession` for session id `"s1"` (no authenticated user) is cached
under the composite key `"s1-server"`; the reset route then looks up the
bare `"s1"`, finds nothing, and deletes nothing — the cache still holds the
session entry for `"s1"` after reset. -/
theorem reset_leaves_session_cached :
    holdsSessionFor (getChatSession [] "s1" none).1 "s1" = true
    ∧ resetSession (getChatSession [] "s1" none).1 "s1" = (getChatSession [] "s1" none).1
    ∧ holdsSessionFor (resetSession (getChatSession [] "s1" none).1 "s1") "s1" = true := by
  refine ⟨?_, ?_, ?_⟩ <;> decide

/-- Recognizer for `functionCalls` stream events. -/
def isFunctionCallsEvent : SSEEvent → Bool
  | SSEEvent.functionCalls _ => true
  | _ => false

/-- C9: in every streaming exchange the handler emits at most one
`functionCalls` event; the event sequence is `connected`, then only `chunk`
events, then either a non-empty `functionCalls` batch immediately followed
by `done` with `needsFunctionResponse = true`, or a single `done` carrying
no `needsFunctionResponse` field, which terminates the exchange. -/
theorem stream_events_shape :
    ∀ chunks : List ModelStreamChunk,
      (streamHandler chunks).countP isFunctionCallsEvent ≤ 1
      ∧ ∃ pre t,
          (∀ e ∈ pre, ∃ s, e = SSEEvent.chunk s)
          ∧ ((∃ cs, cs ≠ []
                ∧ streamHandler chunks =
                    SSEEvent.connected :: (pre ++ [SSEEvent.functionCalls cs,
                      SSEEvent.done t (some true)]))
             ∨ streamHandler chunks =
                 SSEEvent.connected :: (pre ++ [SSEEvent.done t none])) := by
  intro chunks
  have hdef : streamHandler chunks = SSEEvent.connected ::
      ((chunks.filterMap chunkTextOf).map SSEEvent.chunk ++
        (if (chunks.foldl (fun acc c => acc ++ c.functionCalls) []).isEmpty then
          [SSEEvent.done ((chunks.filterMap chunkTextOf).foldl (fun s t => s ++ t) "") none]
         else [SSEEvent.functionCalls (chunks.foldl (fun acc c => acc ++ c.functionCalls) []),
           SSEEvent.done ((chunks.filterMap chunkTextOf).foldl (fun s t => s ++ t) "")
             (some true)])) := rfl
  have hcount0 : ((chunks.filterMap chunkTextOf).map SSEEvent.chunk).countP
      isFunctionCallsEvent = 0 := by
    rw [List.countP_eq_zero]
    intro e he
    rcases List.mem_map.mp he with ⟨s, _, rfl⟩
    simp [isFunctionCallsEvent]
  have hpre : ∀ e ∈ (chunks.filterMap chunkTextOf).map SSEEvent.chunk,
      ∃ s, e = SSEEvent.chunk s := by
    intro e he
    rcases List.mem_map.mp he with ⟨s, _, rfl⟩
    exact ⟨s, rfl⟩
  by_cases hemp : (chunks.foldl (fun acc c => acc ++ c.functionCalls) []).isEmpty
  · constructor
    · rw [hdef, if_pos hemp]
      simp [List.countP_cons, List.countP_append, hcount0, isFunctionCallsEvent]
    · exact ⟨(chunks.filterMap chunkTextOf).map SSEEvent.chunk, _, hpre,
        Or.inr (by rw [hdef, if_pos hemp])⟩
  · constructor
    · rw [hdef, if_neg hemp]
      simp [List.countP_cons, List.countP_append, hcount0, isFunctionCallsEvent]
    · refine ⟨(chunks.filterMap chunkTextOf).map SSEEvent.chunk, _, hpre,
        Or.inl ⟨chunks.foldl (fun acc c => acc ++ c.functionCalls) [], ?_,
          by rw [hdef, if_neg hemp]⟩⟩
      intro hnil
      exact hemp (by simp [hnil])

/-- Witness for `stream_events_shape` at a concrete single-chunk stream. -/
theorem stream_events_shape_witness :
    (streamHandler [{ text := some "Hello", functionCalls := [] }]).countP
        isFunctionCallsEvent ≤ 1
    ∧ ∃ pre t,
        (∀ e ∈ pre, ∃ s, e = SSEEvent.chunk s)
        ∧ ((∃ cs, cs ≠ []
              ∧ streamHandler [{ text := some "Hello", functionCalls := [] }] =
                  SSEEvent.connected :: (pre ++ [SSEEvent.functionCalls cs,
                    SSEEvent.done t (some true)]))
           ∨ streamHandler [{ text := some "Hello", functionCalls := [] }] =
               SSEEvent.connected :: (pre ++ [SSEEvent.done t none])) :=
  stream_events_shape [{ text := some "Hello", functionCalls := [] }]

/-! ### Helper lemmas about tool execution -/

lemma embOpt_none (env : ToolEnv) (t : String) (emsg : String)
    (h : env.fetchEmbedding t = Except.error emsg ∨ env.fetchEmbedding t = Except.ok []) :
    embOpt env t = none := by
  rcases h with h | h <;> simp [embOpt, svcGetEmbedding, h]

lemma runSave_first (env : ToolEnv) (atts : List Attachment) (args : ToolArgs) :
    (∃ er, (runSave env atts args).1 = Except.error er)
    ∨ (∃ i s, (runSave env atts args).1 = Except.ok (ToolResult.saveSuccess i s)) := by
  cases h : env.addMemory args.content args.category args.tags (attachType atts)
      (attachData atts) (attachMime atts) (attachName atts) (embOpt env args.content) with
  | error er => exact Or.inl ⟨er, by simp [runSave, h]⟩
  | ok i =>
    exact Or.inr ⟨i,
      if (embOpt env args.content).isSome then "Memory saved with vector embedding."
      else "Memory saved (embedding unavailable).",
      by simp [runSave, h]⟩

lemma runSearch_first (env : ToolEnv) (args : ToolArgs) :
    (∃ er, (runSearch env args).1 = Except.error er)
    ∨ (∃ c : List Memory, (runSearch env args).1 =
        Except.ok (ToolResult.searchResult c.length ((c.take 8).map sanitizeFields))) := by
  cases hemb : embOpt env args.query with
  | some e =>
    cases hv : env.vectorSearch e with
    | error er => exact Or.inl ⟨er, by simp [runSearch, hemb, hv]⟩
    | ok vec =>
      cases hk : env.keywordSearch args.query with
      | error er => exact Or.inl ⟨er, by simp [runSearch, hemb, hv, hk]⟩
      | ok kw => exact Or.inr ⟨mergeDedup vec kw, by simp [runSearch, hemb, hv, hk]⟩
  | none =>
    cases hk : env.keywordSearch args.query with
    | error er => exact Or.inl ⟨er, by simp [runSearch, hemb, hk]⟩
    | ok kw => exact Or.inr ⟨mergeDedup [] kw, by simp [runSearch, hemb, hk]⟩

lemma executeCall_search_shape (env : ToolEnv) (atts : List Attachment)
    (call : FunctionCall) (n : Nat) (results : List (List (String × JsVal)))
    (h : executeCall env atts call = ToolResult.searchResult n results) :
    ∃ c : List Memory, results = (c.take 8).map sanitizeFields := by
  by_cases h1 : call.name = "save_memory"
  · simp only [executeCall, executeCallWithLog, executeToolBody, if_pos h1] at h
    rcases runSave_first env atts call.args with ⟨er, he⟩ | ⟨i, s, he⟩ <;>
      rw [he] at h <;> simp at h
  · by_cases h2 : call.name = "search_memory"
    · simp only [executeCall, executeCallWithLog, executeToolBody,
        if_neg h1, if_pos h2] at h
      rcases runSearch_first env call.args with ⟨er, he⟩ | ⟨c, he⟩
      · rw [he] at h; simp at h
      · rw [he] at h
        injection h with hn hr
        exact ⟨c, hr.symm⟩
    · simp only [executeCall, executeCallWithLog, executeToolBody,
        if_neg h1, if_neg h2] at h
      simp at h

/-- C1: the sanitized form of a record is exactly the field list
`id, content, category, tags, timestamp, type, mediaName` — it never carries
the keys `mediaData` or `embedding` — and every result list a
`search_memory` execution hands back to the model is built from such
sanitized records (after the take-8 truncation), whatever the record's
`mediaData` or `embedding` contained. -/
theorem sanitized_results_strip_heavy :
    (∀ m : Memory,
      (sanitizeFields m).map Prod.fst = sanitizedKeys
      ∧ "mediaData" ∉ (sanitizeFields m).map Prod.fst
      ∧ "embedding" ∉ (sanitizeFields m).map Prod.fst)
    ∧ (∀ (env : ToolEnv) (atts : List Attachment) (call : FunctionCall)
        (n : Nat) (results : List (List (String × JsVal))),
        executeCall env atts call = ToolResult.searchResult n results →
        ∀ f ∈ results, f.map Prod.fst = sanitizedKeys
          ∧ "mediaData" ∉ f.map Prod.fst
          ∧ "embedding" ∉ f.map Prod.fst) := by
  have hone : ∀ m : Memory,
      (sanitizeFields m).map Prod.fst = sanitizedKeys
      ∧ "mediaData" ∉ (sanitizeFields m).map Prod.fst
      ∧ "embedding" ∉ (sanitizeFields m).map Prod.fst := by
    intro m
    refine ⟨rfl, ?_, ?_⟩ <;> · show _ ∉ sanitizedKeys; decide
  refine ⟨hone, ?_⟩
  intro env atts call n results h f hf
  rcases executeCall_search_shape env atts call n results h with ⟨c, rfl⟩
  rcases List.mem_map.mp hf with ⟨m, _, rfl⟩
  exact hone m

/-- A record carrying non-empty heavy fields (`mediaData`, `embedding`). -/
def memHeavy : Memory :=
  { id := 9, content := "heavy", category := "general", tags := ["x"],
    timestamp := 42, type := MemoryType.image, mediaData := some "QUJD",
    mediaMimeType := some "image/png", mediaName := some "pic.png",
    embedding := some [(1 : ℝ)] }

/-- An environment whose embedding endpoint is down and whose keyword search
finds `memHeavy`. -/
def envKw : ToolEnv :=
  { fetchEmbedding := fun _ => Except.error "embedding down",
    addMemory := fun _ _ _ _ _ _ _ _ => Except.ok 1,
    vectorSearch := fun _ => Except.ok [],
    keywordSearch := fun _ => Except.ok [memHeavy] }

/-- A `search_memory` tool call. -/
def searchCall : FunctionCall :=
  { id := "call-1", name := "search_memory",
    args := { content := "", category := "", tags := [], query := "pic" } }

/-- Witness for `sanitized_results_strip_heavy`: a search execution whose
single result record holds non-empty `mediaData` and `embedding` still hands
the model only the seven sanitized keys. -/
theorem sanitized_results_strip_heavy_witness :
    (sanitizeFields memHeavy).map Prod.fst = sanitizedKeys
    ∧ "mediaData" ∉ (sanitizeFields memHeavy).map Prod.fst
    ∧ "embedding" ∉ (sanitizeFields memHeavy).map Prod.fst :=
  sanitized_results_strip_heavy.2 envKw [] searchCall 1 [sanitizeFields memHeavy]
    rfl (sanitizeFields memHeavy) (List.mem_singleton.mpr rfl)

/-- C2: when the Memory Store's `create` throws, the `save_memory` tool's
result is `{error: message}`, the turn still completes (the orchestrator
loop returns normally once the model stops calling tools), and a response
entry correlated by the call's id is still submitted back to the model. -/
theorem tool_failure_isolated :
    (∀ (env : ToolEnv) (atts : List Attachment) (call : FunctionCall)
        (msg : String) (log : List StoreEvent),
      executeToolBody env atts call = (Except.error msg, log) →
      executeCall env atts call = ToolResult.error msg)
    ∧ ∀ (env : ToolEnv) (atts : List Attachment) (msg : String),
      (∀ c cat tg ty md mm mn em,
        env.addMemory c cat tg ty md mm mn em = Except.error msg) →
      ∀ call : FunctionCall, call.name = "save_memory" →
        executeCall env atts call = ToolResult.error msg
        ∧ (∀ (step : ModelStep) (f : List FunctionResponse → ModelStep),
            call ∈ step.functionCalls →
            (∀ rs, (f rs).functionCalls = []) →
            runTurn env atts step [f] =
              some ((f (processCalls env atts step.functionCalls)).text,
                [processCalls env atts step.functionCalls])
            ∧ ({ id := call.id, name := call.name, result := ToolResult.error msg }
                : FunctionResponse) ∈ processCalls env atts step.functionCalls) := by
  refine ⟨?_, ?_⟩
  · intro env atts call msg log h
    simp [executeCall, executeCallWithLog, h]
  intro env atts msg hadd call hname
  have hexec : executeCall env atts call = ToolResult.error msg := by
    simp [executeCall, executeCallWithLog, executeToolBody, if_pos hname, runSave, hadd]
  refine ⟨hexec, ?_⟩
  intro step f hmem hf
  have hne : step.functionCalls.isEmpty = false := by
    cases hfc : step.functionCalls with
    | nil => rw [hfc] at hmem; simp at hmem
    | cons a l => rfl
  have hinner : ∀ resp, runTurn env atts (f resp) [] = some ((f resp).text, []) := by
    intro resp
    rw [runTurn, hf resp]
    rfl
  constructor
  · rw [runTurn, hne]
    simp [hinner]
  · have hm : ({ id := call.id, name := call.name, result := executeCall env atts call } : FunctionResponse)
        ∈ processCalls env atts step.functionCalls :=
      List.mem_map.mpr ⟨call, hmem, rfl⟩
    rwa [hexec] at hm

/-- An environment whose Memory Store `create` always throws. -/
def envFailingStore : ToolEnv :=
  { fetchEmbedding := fun _ => Except.error "net down",
    addMemory := fun _ _ _ _ _ _ _ _ => Except.error "DB down",
    vectorSearch := fun _ => Except.ok [],
    keywordSearch := fun _ => Except.ok [] }

/-- A `save_memory` tool call. -/
def saveCall : FunctionCall :=
  { id := "call-2", name := "save_memory",
    args := { content := "I love sci-fi movies", category := "personal", tags := ["movies"], query := "" } }

/-- A tool call with an unrecognized name. -/
def unknownCall : FunctionCall :=
  { id := "call-3", name := "delete_memory",
    args := { content := "", category := "", tags := [], query := "" } }

/-- Witness for `tool_failure_isolated`: a concrete turn in which the store
throws `"DB down"` during `save_memory`. -/
theorem tool_failure_isolated_witness :
    executeCall envFailingStore [] saveCall = ToolResult.error "DB down"
    ∧ runTurn envFailingStore [] { text := "", functionCalls := [saveCall] }
        [fun _ => { text := "Sorry, saving failed.", functionCalls := [] }] =
        some ("Sorry, saving failed.", [processCalls envFailingStore [] [saveCall]])
    ∧ ({ id := saveCall.id, name := saveCall.name, result := ToolResult.error "DB down" } : FunctionResponse)
        ∈ processCalls envFailingStore [] [saveCall] := by
  have h := tool_failure_isolated.2 envFailingStore [] "DB down"
    (fun _ _ _ _ _ _ _ _ => rfl) saveCall rfl
  have h2 := h.2 { text := "", functionCalls := [saveCall] }
    (fun _ => { text := "Sorry, saving failed.", functionCalls := [] })
    (List.mem_singleton.mpr rfl) (fun _ => rfl)
  exact ⟨h.1, h2.1, h2.2⟩

/-- C8: a failed or empty embedding is never fatal.  For `save_memory`, when
the embedding endpoint throws or yields the empty vector, the memory is
still written — with `embedding = none` — and the tool reports success with
the `(embedding unavailable)` status.  For `search_memory`, the search
degrades to keyword-only results (the vector store is never consulted)
rather than failing the call. -/
theorem embedding_failure_nonfatal :
    (∀ (env : ToolEnv) (atts : List Attachment) (args : ToolArgs) (i : Nat) (emsg : String),
      (env.fetchEmbedding args.content = Except.error emsg
        ∨ env.fetchEmbedding args.content = Except.ok []) →
      env.addMemory args.content args.category args.tags (attachType atts)
        (attachData atts) (attachMime atts) (attachName atts) none = Except.ok i →
      runSave env atts args =
        (Except.ok (ToolResult.saveSuccess i "Memory saved (embedding unavailable)."),
         [StoreEvent.createCalled args.content args.category args.tags (attachType atts)
           (attachData atts) (attachMime atts) (attachName atts) none]))
    ∧ (∀ (env : ToolEnv) (args : ToolArgs) (kw : List Memory) (emsg : String),
      (env.fetchEmbedding args.query = Except.error emsg
        ∨ env.fetchEmbedding args.query = Except.ok []) →
      env.keywordSearch args.query = Except.ok kw →
      runSearch env args =
        (Except.ok (ToolResult.searchResult (mergeDedup [] kw).length
          (((mergeDedup [] kw).take 8).map sanitizeFields)),
         [StoreEvent.keywordSearched args.query])) := by
  constructor
  · intro env atts args i emsg hemb haddOk
    have hnone := embOpt_none env args.content emsg hemb
    simp [runSave, hnone, haddOk]
  · intro env args kw emsg hemb hkw
    have hnone := embOpt_none env args.query emsg hemb
    simp [runSearch, hnone, hkw]

/-- An environment whose embedding endpoint returns the empty vector and
whose store otherwise works. -/
def envOkStore : ToolEnv :=
  { fetchEmbedding := fun _ => Except.ok [],
    addMemory := fun _ _ _ _ _ _ _ _ => Except.ok 7,
    vectorSearch := fun _ => Except.ok [],
    keywordSearch := fun _ => Except.ok [memMango] }

/-- Witness for `embedding_failure_nonfatal`: the empty-embedding case on a
concrete save and a concrete search. -/
theorem embedding_failure_nonfatal_witness :
    runSave envOkStore [] saveCall.args =
      (Except.ok (ToolResult.saveSuccess 7 "Memory saved (embedding unavailable)."),
       [StoreEvent.createCalled "I love sci-fi movies" "personal" ["movies"]
         MemoryType.text none none none none])
    ∧ runSearch envOkStore searchCall.args =
      (Except.ok (ToolResult.searchResult (mergeDedup [] [memMango]).length
        (((mergeDedup [] [memMango]).take 8).map sanitizeFields)),
       [StoreEvent.keywordSearched "pic"]) :=
  ⟨embedding_failure_nonfatal.1 envOkStore [] saveCall.args 7 "never"
      (Or.inr rfl) rfl,
   embedding_failure_nonfatal.2 envOkStore searchCall.args [memMango] "never"
      (Or.inr rfl) rfl⟩

/-- C10: a tool call with an unrecognized name performs no Memory Store
interaction (its outcome and empty event log are independent of the store
environment), its recorded result is `{error: "Unknown tool"}`, and a
response entry correlated by its id is still submitted. -/
theorem unknown_tool_no_store_call :
    ∀ (env : ToolEnv) (atts : List Attachment) (call : FunctionCall),
      call.name ≠ "save_memory" → call.name ≠ "search_memory" →
      executeCallWithLog env atts call = (ToolResult.error "Unknown tool", [])
      ∧ (∀ env2 : ToolEnv, executeCallWithLog env2 atts call = executeCallWithLog env atts call)
      ∧ (∀ calls : List FunctionCall, call ∈ calls →
          ({ id := call.id, name := call.name, result := ToolResult.error "Unknown tool" } : FunctionResponse)
            ∈ processCalls env atts calls) := by
  intro env atts call h1 h2
  have hbase : ∀ e : ToolEnv,
      executeCallWithLog e atts call = (ToolResult.error "Unknown tool", []) := by
    intro e
    simp [executeCallWithLog, executeToolBody, if_neg h1, if_neg h2]
  refine ⟨hbase env, fun env2 => by rw [hbase env2, hbase env], ?_⟩
  intro calls hmem
  have hm : ({ id := call.id, name := call.name, result := executeCall env atts call } : FunctionResponse)
      ∈ processCalls env atts calls :=
    List.mem_map.mpr ⟨call, hmem, rfl⟩
  have hr : executeCall env atts call = ToolResult.error "Unknown tool" := by
    rw [executeCall, hbase env]
  rwa [hr] at hm

/-- Witness for `unknown_tool_no_store_call` at a concrete unrecognized
call. -/
theorem unknown_tool_no_store_call_witness :
    executeCallWithLog envKw [] unknownCall = (ToolResult.error "Unknown tool", [])
    ∧ ({ id := unknownCall.id, name := unknownCall.name, result := ToolResult.error "Unknown tool" } : FunctionResponse)
        ∈ processCalls envKw [] [unknownCall] :=
  ⟨(unknown_tool_no_store_call envKw [] unknownCall (by decide) (by decide)).1,
   (unknown_tool_no_store_call envKw [] unknownCall (by decide) (by decide)).2.2
     [unknownCall] (List.mem_singleton.mpr rfl)⟩
